import Mathlib

/-!
Verification of the `CmdLine` declarative command-line parser of the `dm-std`
repository (`src/cmd_line/index.ts`), together with the `Obj` path-addressed
get/set helpers it uses.  JavaScript runtime values are modelled by the
inductive type `Value`; numbers are modelled as rationals (the sources only
manipulate small decimal literals, so IEEE-754 rounding never matters for the
properties below); `undefined` and `null` are explicit constructors.
-/

/-- A JavaScript runtime value as used by the parser: `undefined`, `null`,
booleans, numbers (modelled as rationals), strings, arrays and plain objects
(field lists in insertion order). -/
inductive Value where
  | vUndefined : Value
  | vNull : Value
  | vBool : Bool → Value
  | vNum : ℚ → Value
  | vStr : String → Value
  | vArr : List Value → Value
  | vObj : List (String × Value) → Value
deriving Inhabited

/-- `v === undefined || v === null` (the containment test used by `Obj`). -/
def Value.isUndefinedOrNull : Value → Bool
  | .vUndefined => true
  | .vNull => true
  | _ => false

/-- `v === undefined`. -/
def Value.isUndefined : Value → Bool
  | .vUndefined => true
  | _ => false

namespace Obj

/-- First-match association-list read of an object field; `vUndefined` models a
missing property. -/
def getField : List (String × Value) → String → Value
  | [], _ => .vUndefined
  | (k, v) :: fs, k' => if k' = k then v else getField fs k'

/-- Association-list write: an existing key keeps its position (JS object
semantics), a new key is appended at the end. -/
def setField : List (String × Value) → String → Value → List (String × Value)
  | [], k, v => [(k, v)]
  | (k0, v0) :: fs, k, v => if k0 = k then (k, v) :: fs else (k0, v0) :: setField fs k v

/-- `/^\d+$/.test k`: is the key a pure (non-empty) digit string? -/
def isNumericKey (k : String) : Bool :=
  !k.toList.isEmpty && k.toList.all Char.isDigit

/-- Digit-string to number, as used for array indices. -/
def digitsVal (cs : List Char) : Nat :=
  cs.foldl (fun a c => a * 10 + (c.toNat - 48)) 0

/-- Write into a JS array at a numeric index, padding holes with `undefined`
as JS does for out-of-range assignment. -/
def listSetPad (xs : List Value) (i : Nat) (v : Value) : List Value :=
  if i < xs.length then xs.set i v
  else xs ++ List.replicate (i - xs.length) .vUndefined ++ [v]

/-- `current[key]` read.  Property access on primitives yields `undefined`;
only numeric-index access on arrays is modelled (the parser never reads a
named property off an array). -/
def getKey : Value → String → Value
  | .vObj fs, k => getField fs k
  | .vArr xs, k =>
      if isNumericKey k then xs.getD (digitsVal k.toList) .vUndefined else .vUndefined
  | _, _ => .vUndefined

/-- `current[key] = v` write.  Assignment on primitives is a no-op (sloppy-mode
JS); non-index properties on arrays are not modelled (never used here). -/
def setKey : Value → String → Value → Value
  | .vObj fs, k, v => .vObj (setField fs k v)
  | .vArr xs, k, v =>
      if isNumericKey k then .vArr (listSetPad xs (digitsVal k.toList) v) else .vArr xs
  | other, _, _ => other

/-- One pass of the scanner modelling `path.replace(/\[(\d+)\]/g, '.$1')`.
`pend = some ds` means we are inside a candidate `[digits` group (digits kept
in order). -/
def brAux : Option (List Char) → List Char → List Char
  | none, [] => []
  | some ds, [] => '[' :: ds
  | none, c :: rest => if c = '[' then brAux (some []) rest else c :: brAux none rest
  | some ds, c :: rest =>
      if c = '[' then '[' :: ds ++ brAux (some []) rest
      else if c = ']' then
        if ds.isEmpty then '[' :: ']' :: brAux none rest
        else '.' :: ds ++ brAux none rest
      else if c.isDigit then brAux (some (ds ++ [c])) rest
      else '[' :: ds ++ c :: brAux none rest

/-- Split a character list on a separator character, JS `String.split` style:
the result always has at least one (possibly empty) piece.  `cur` accumulates
the piece being built. -/
def splitOnCharAux (sep : Char) (cur : List Char) : List Char → List String
  | [] => [cur.asString]
  | c :: rest =>
      if c = sep then cur.asString :: splitOnCharAux sep [] rest
      else splitOnCharAux sep (cur ++ [c]) rest

/-- JS `String.split` with a one-character separator. -/
def splitOnChar (sep : Char) (cs : List Char) : List String :=
  splitOnCharAux sep [] cs

/-- `path.replace(/\[(\d+)\]/g, '.$1').split('.')`. -/
def pathToSegments (path : String) : List String :=
  splitOnChar '.' (brAux none path.toList)

/-- The core of `Obj.get`: walk the segments, returning `vUndefined` (the absent
`defaultValue`) when the walk falls off. -/
def getSegs : Value → List String → Value
  | v, [] => v
  | v, k :: rest =>
      if v.isUndefinedOrNull then .vUndefined
      else
        let c := getKey v k
        if c.isUndefined then .vUndefined else getSegs c rest

/-- `Obj.get(obj, path)` (no `defaultValue` argument, as in every call site of
the parser: a missing path reads as `undefined`). -/
def get (obj : Value) (path : String) : Value :=
  getSegs obj (pathToSegments path)

/-- The core of `Obj.set`: walk to the parent of the last segment, creating a
fresh `[]`/`{}` when the next container is missing (`undefined` or `null`),
choosing an array iff the next key is numeric, then assign the last segment. -/
def setSegs : Value → List String → Value → Value
  | v, [], _ => v
  | v, [k], x => setKey v k x
  | v, k :: k2 :: rest, x =>
      let child := getKey v k
      let child :=
        if child.isUndefinedOrNull then
          if isNumericKey k2 then .vArr [] else .vObj []
        else child
      setKey v k (setSegs child (k2 :: rest) x)

/-- `Obj.set(obj, path, value)`. -/
def set (obj : Value) (path : String) (x : Value) : Value :=
  setSegs obj (pathToSegments path) x

end Obj

namespace Js

/-- Take a leading run of decimal digits. -/
def spanDigits (cs : List Char) : List Char × List Char :=
  (cs.takeWhile Char.isDigit, cs.dropWhile Char.isDigit)

/-- Parse the longest signed decimal literal (`[+-]? (D+ ['.' D*] | '.' D+)
[(e|E) [+-]? D+]`) prefix of the character list, returning its exact rational
value and the unconsumed rest; `none` when no digits are found.  Hexadecimal,
octal, binary and `Infinity` literal forms of JS are outside this model (the
parser never feeds them in the verified scenarios). -/
def parseDecPrefix (cs : List Char) : Option (ℚ × List Char) :=
  let (sgn, cs1) : ℚ × List Char :=
    match cs with
    | '-' :: t => (-1, t)
    | '+' :: t => (1, t)
    | t => (1, t)
  let (ip, cs2) := spanDigits cs1
  let (fp, cs3) : Option (List Char) × List Char :=
    match cs2 with
    | '.' :: t => (some (spanDigits t).1, (spanDigits t).2)
    | t => (none, t)
  if ip.isEmpty && (fp.getD []).isEmpty then none
  else
    let mant : ℚ :=
      sgn * ((Obj.digitsVal ip : ℚ) +
        (match fp with
         | some f => (Obj.digitsVal f : ℚ) / ((10 : ℚ) ^ f.length)
         | none => 0))
    match cs3 with
    | 'e' :: t =>
        let (esgn, t1) : Int × List Char :=
          match t with
          | '-' :: u => (-1, u)
          | '+' :: u => (1, u)
          | u => (1, u)
        let (ed, t2) := spanDigits t1
        if ed.isEmpty then some (mant, cs3)
        else some (mant * (10 : ℚ) ^ (esgn * (Obj.digitsVal ed : Int)), t2)
    | 'E' :: t =>
        let (esgn, t1) : Int × List Char :=
          match t with
          | '-' :: u => (-1, u)
          | '+' :: u => (1, u)
          | u => (1, u)
        let (ed, t2) := spanDigits t1
        if ed.isEmpty then some (mant, cs3)
        else some (mant * (10 : ℚ) ^ (esgn * (Obj.digitsVal ed : Int)), t2)
    | t => some (mant, t)

/-- Trim JS whitespace from both ends. -/
def trimWs (cs : List Char) : List Char :=
  ((cs.dropWhile Char.isWhitespace).reverse.dropWhile Char.isWhitespace).reverse

/-- `Number(s)` on the decimal fragment: whitespace-trimmed empty string is 0,
otherwise the whole trimmed string must be one decimal literal; `none` models
`NaN`. -/
def jsNumber (s : String) : Option ℚ :=
  let cs := trimWs s.toList
  if cs.isEmpty then some 0
  else
    match parseDecPrefix cs with
    | some (q, []) => some q
    | _ => none

/-- `parseFloat(s)`: skip leading whitespace, take the longest decimal-literal
prefix; 0 stands for the unreachable `NaN` case (all call sites are guarded by
`isNumericString`). -/
def parseFloat (s : String) : ℚ :=
  match parseDecPrefix (s.toList.dropWhile Char.isWhitespace) with
  | some (q, _) => q
  | none => 0

/-- `parseInt(s, 10)`: skip whitespace, optional sign, leading digit run;
`none` models `NaN`. -/
def parseInt (s : String) : Option Int :=
  let cs := s.toList.dropWhile Char.isWhitespace
  let (sgn, cs1) : Int × List Char :=
    match cs with
    | '-' :: t => (-1, t)
    | '+' :: t => (1, t)
    | t => (1, t)
  let (ds, _) := spanDigits cs1
  if ds.isEmpty then none else some (sgn * (Obj.digitsVal ds : Int))

end Js

namespace Js

/-- JSON insignificant whitespace. -/
def skipJsonWs (cs : List Char) : List Char :=
  cs.dropWhile (fun c => c = ' ' ∨ c = '\t' ∨ c = '\n' ∨ c = '\r')

/-- Hexadecimal digit value, for `\uXXXX` escapes. -/
def hexVal (c : Char) : Option Nat :=
  if c.isDigit then some (c.toNat - 48)
  else if 'a' ≤ c ∧ c ≤ 'f' then some (c.toNat - 87)
  else if 'A' ≤ c ∧ c ≤ 'F' then some (c.toNat - 55)
  else none

/-- Parse the body of a JSON string after the opening quote; returns the
content and the characters after the closing quote.  Surrogate-pair `\u`
escapes are mapped char-by-char (full UTF-16 pairing is not modelled; the
parser's verified scenarios never reach it). -/
def jsonStringAux : List Char → Option (List Char × List Char)
  | [] => none
  | '"' :: rest => some ([], rest)
  | '\\' :: e :: rest =>
      match e with
      | 'b' => (jsonStringAux rest).map (fun p => (Char.ofNat 8 :: p.1, p.2))
      | 'f' => (jsonStringAux rest).map (fun p => (Char.ofNat 12 :: p.1, p.2))
      | 'n' => (jsonStringAux rest).map (fun p => ('\n' :: p.1, p.2))
      | 'r' => (jsonStringAux rest).map (fun p => ('\r' :: p.1, p.2))
      | 't' => (jsonStringAux rest).map (fun p => ('\t' :: p.1, p.2))
      | '"' => (jsonStringAux rest).map (fun p => ('"' :: p.1, p.2))
      | '\\' => (jsonStringAux rest).map (fun p => ('\\' :: p.1, p.2))
      | '/' => (jsonStringAux rest).map (fun p => ('/' :: p.1, p.2))
      | 'u' =>
          match rest with
          | h1 :: h2 :: h3 :: h4 :: rest2 =>
              match hexVal h1, hexVal h2, hexVal h3, hexVal h4 with
              | some a, some b, some c, some d =>
                  (jsonStringAux rest2).map
                    (fun p => (Char.ofNat (a * 4096 + b * 256 + c * 16 + d) :: p.1, p.2))
              | _, _, _, _ => none
          | _ => none
      | _ => none
  | c :: rest => (jsonStringAux rest).map (fun p => (c :: p.1, p.2))

/-- JSON number: modelled by the decimal-prefix parser, restricted to the
JSON-legal first characters (`-` or a digit).  This is slightly laxer than
strict JSON (leading zeros and a trailing bare `.` are accepted); no claim
depends on JSON number syntax. -/
def jsonNumber (cs : List Char) : Option (ℚ × List Char) :=
  match cs with
  | '-' :: c :: _ => if c.isDigit then parseDecPrefix cs else none
  | c :: _ => if c.isDigit then parseDecPrefix cs else none
  | [] => none

mutual

/-- Fuel-indexed JSON value parser (`JSON.parse` model); each recursive layer
spends one unit of fuel, and `jsonParse` supplies more fuel than any input can
consume, so fuel exhaustion (`none`) coincides with a parse error. -/
def jsonValue : Nat → List Char → Option (Value × List Char)
  | 0, _ => none
  | fuel + 1, cs =>
      match skipJsonWs cs with
      | 'n' :: 'u' :: 'l' :: 'l' :: rest => some (.vNull, rest)
      | 't' :: 'r' :: 'u' :: 'e' :: rest => some (.vBool true, rest)
      | 'f' :: 'a' :: 'l' :: 's' :: 'e' :: rest => some (.vBool false, rest)
      | '"' :: rest => (jsonStringAux rest).map (fun p => (.vStr p.1.asString, p.2))
      | '{' :: rest =>
          (match skipJsonWs rest with
           | '}' :: r2 => some (.vObj [], r2)
           | r2 => (jsonMembers fuel r2).map (fun p => (.vObj p.1, p.2)))
      | '[' :: rest =>
          (match skipJsonWs rest with
           | ']' :: r2 => some (.vArr [], r2)
           | r2 => (jsonElems fuel r2).map (fun p => (.vArr p.1, p.2)))
      | rest => (jsonNumber rest).map (fun p => (.vNum p.1, p.2))

/-- Members of a JSON object after the opening brace (at least one). -/
def jsonMembers : Nat → List Char → Option (List (String × Value) × List Char)
  | 0, _ => none
  | fuel + 1, cs =>
      match skipJsonWs cs with
      | '"' :: rest =>
          (match jsonStringAux rest with
           | none => none
           | some (key, r1) =>
               match skipJsonWs r1 with
               | ':' :: r2 =>
                   (match jsonValue fuel r2 with
                    | none => none
                    | some (v, r3) =>
                        match skipJsonWs r3 with
                        | ',' :: r4 =>
                            (jsonMembers fuel r4).map (fun p => ((key.asString, v) :: p.1, p.2))
                        | '}' :: r4 => some ([(key.asString, v)], r4)
                        | _ => none)
               | _ => none)
      | _ => none

/-- Elements of a JSON array after the opening bracket (at least one). -/
def jsonElems : Nat → List Char → Option (List Value × List Char)
  | 0, _ => none
  | fuel + 1, cs =>
      match jsonValue fuel cs with
      | none => none
      | some (v, r1) =>
          match skipJsonWs r1 with
          | ',' :: r2 => (jsonElems fuel r2).map (fun p => (v :: p.1, p.2))
          | ']' :: r2 => some ([v], r2)
          | _ => none

end

/-- `JSON.parse(s)`: `none` models a thrown `SyntaxError`. -/
def jsonParse (s : String) : Option Value :=
  match jsonValue (s.length + 1) s.toList with
  | some (v, rest) => if (skipJsonWs rest).isEmpty then some v else none
  | none => none

end Js

namespace CmdLine

/-- `CmdLine.Option.ValueType`: the closed set of accepted value types. -/
inductive ValueType where
  | none
  | float
  | integer
  | boolean
  | json
  | string
deriving DecidableEq, Repr

/-- The literal name of a `ValueType` (they are strings in the source). -/
def ValueType.toStr : ValueType → String
  | .none => "none"
  | .float => "float"
  | .integer => "integer"
  | .boolean => "boolean"
  | .json => "json"
  | .string => "string"

/-- `VALUE_TYPE_ORDER`, the fixed precedence order. -/
def VALUE_TYPE_ORDER : List ValueType :=
  [.none, .float, .integer, .boolean, .json, .string]

/-- Position in `VALUE_TYPE_ORDER` (the sort key of the comparator
`(a, b) => VALUE_TYPE_ORDER.indexOf(a) - VALUE_TYPE_ORDER.indexOf(b)`). -/
def typeIdx (t : ValueType) : Nat :=
  VALUE_TYPE_ORDER.indexOf t

/-- `typeArray.sort(...)`: stable ascending sort by precedence index. -/
def sortTypes (ts : List ValueType) : List ValueType :=
  ts.insertionSort (fun a b => typeIdx a ≤ typeIdx b)

/-- The declared `type` field: a single `ValueType` or a list of them. -/
inductive ValueTypes where
  | one : ValueType → ValueTypes
  | many : List ValueType → ValueTypes

/-- A caller-facing option descriptor (`CmdLine.Option` in the source; named
`Opt` because `Option` is taken by Lean).  Absent optional fields are the JS
`undefined`: in particular `default := .vUndefined` means "no default". -/
structure Opt where
  isArray : Bool := false
  triggers : List String
  target : Option String := Option.none
  type : ValueTypes
  map : Option (List (String × Value)) := Option.none
  default : Value := .vUndefined
  description : Option String := Option.none

/-- A compiled option: the clone whose `type` has been normalised to a
precedence-sorted list (the `option.type as Option.ValueType[]` cast in the
source's `parse` asserts exactly this shape). -/
structure OptC where
  isArray : Bool := false
  triggers : List String
  target : Option String := Option.none
  type : List ValueType
  map : Option (List (String × Value)) := Option.none
  default : Value := .vUndefined
  description : Option String := Option.none

/-- The per-descriptor work of `Options.parse`: deep-clone (the identity in
this pure model), wrap a single `type` into a one-element list, sort it by
precedence. -/
def compileOpt (o : Opt) : OptC :=
  { isArray := o.isArray
    triggers := o.triggers
    target := o.target
    type := sortTypes (match o.type with | .one t => [t] | .many ts => ts)
    map := o.map
    default := o.default
    description := o.description }

/-- First-match lookup in a JS object modelled as an ordered association
list. -/
def assocGet {α : Type} : List (String × α) → String → Option α
  | [], _ => Option.none
  | (k, v) :: m, k' => if k' = k then some v else assocGet m k'

/-- JS object assignment: an existing key keeps its position, a new key is
appended at the end. -/
def recordSet {α : Type} : List (String × α) → String → α → List (String × α)
  | [], k, v => [(k, v)]
  | (k0, v0) :: m, k, v => if k0 = k then (k, v) :: m else (k0, v0) :: recordSet m k v

/-- `Options.Parsed`: the trigger → compiled-option mapping, as an ordered
association list (JS insertion order; the special JS reordering of
integer-like object keys is not modelled — triggers start with `-`). -/
abbrev Parsed := List (String × OptC)

/-- The duplicate-trigger diagnostic pushed to the log sink. -/
def dupMsg (trigger : String) : String :=
  "CmdLine.Options.parse: Duplicate trigger '" ++ trigger ++ "' detected. Overwriting."

/-- The body of the inner trigger loop of `Options.parse`: register one
trigger of a compiled option, first collecting a diagnostic if the trigger is
already present. -/
def registerTrigger (oc : OptC) (mw : Parsed × List String) (trigger : String) :
    Parsed × List String :=
  let w := if (assocGet mw.1 trigger).isSome then mw.2 ++ [dupMsg trigger] else mw.2
  (recordSet mw.1 trigger oc, w)

/-- One step of `Options.parse`: compile one descriptor and register each of
its triggers in order. -/
def stepOption (acc : Parsed × List String) (o : Opt) : Parsed × List String :=
  o.triggers.foldl (registerTrigger (compileOpt o)) acc

namespace Options

/-- `CmdLine.Options.parse` together with the messages it pushes to the log
sink (the ambient `Log.push` side effect is modelled as a writer output). -/
def parseAux (options : List Opt) : Parsed × List String :=
  options.foldl stepOption ([], [])

/-- `CmdLine.Options.parse`: compile a descriptor list into the trigger
mapping.  It has no error outcome. -/
def parse (options : List Opt) : Parsed :=
  (parseAux options).1

/-- The duplicate-trigger diagnostics emitted while compiling. -/
def parseWarnings (options : List Opt) : List String :=
  (parseAux options).2

end Options

/-- Derive an option's result target: the explicit `target` when truthy (the
empty string is falsy in JS), else the longest trigger (first wins on ties)
stripped of its leading `-` characters. -/
def getTarget (option : OptC) : String :=
  let longest := option.triggers.foldl (fun acc t => if t.length > acc.length then t else acc) ""
  let derived := (longest.toList.dropWhile (fun c => c = '-')).asString
  match option.target with
  | some t => if t = "" then derived else t
  | Option.none => derived

/-- The tokenizer state machine of `stringToArgv`: accumulated `args`, the
token under construction, quote mode and the pending-escape flag, consuming
the line character by character. -/
def stringToArgvAux (args : List String) (currentArg : List Char)
    (inQuotes isEscaped : Bool) : List Char → List String
  | [] => if currentArg.length > 0 then args ++ [currentArg.asString] else args
  | c :: rest =>
      if isEscaped then stringToArgvAux args (currentArg ++ [c]) inQuotes false rest
      else if c = '\\' then stringToArgvAux args currentArg inQuotes true rest
      else if c = '"' then stringToArgvAux args currentArg (!inQuotes) isEscaped rest
      else if c = ' ' ∧ inQuotes = false then
        (if currentArg.length > 0 then
          stringToArgvAux (args ++ [currentArg.asString]) [] inQuotes isEscaped rest
         else stringToArgvAux args currentArg inQuotes isEscaped rest)
      else stringToArgvAux args (currentArg ++ [c]) inQuotes isEscaped rest

/-- `stringToArgv`: tokenize one raw argument line. -/
def stringToArgv (line : String) : List String :=
  stringToArgvAux [] [] false false line.toList

/-- `isNumericString` from `parseValue`: not blank, and `Number(s)` is a
finite number. -/
def isNumericString (s : String) : Bool :=
  !(Js.trimWs s.toList).isEmpty && (Js.jsNumber s).isSome

/-- The value-coercion engine (`parseValue`): try the allowed types in list
order, first success wins; `none` has no case in the source's `switch` and is
skipped.  `Js.parseInt` can only be `NaN` (`Option.none`, defaulted to 0)
when `isNumericString` fails, so the `getD` default is unreachable. -/
def parseValue (value : String) : List ValueType → Except String (Value × ValueType)
  | [] => .error ("Value '" ++ value ++ "' could not be parsed as any allowed type")
  | t :: rest =>
      match t with
      | .float =>
          if isNumericString value then .ok (.vNum (Js.parseFloat value), .float)
          else parseValue value rest
      | .integer =>
          if isNumericString value ∧ value.toList.contains '.' = false then
            .ok (.vNum (((Js.parseInt value).getD 0 : Int) : ℚ), .integer)
          else parseValue value rest
      | .boolean =>
          let lowerVal := (value.toList.map Char.toLower).asString
          if lowerVal = "true" ∨ lowerVal = "1" ∨ lowerVal = "yes" then
            .ok (.vBool true, .boolean)
          else if lowerVal = "false" ∨ lowerVal = "0" ∨ lowerVal = "no" then
            .ok (.vBool false, .boolean)
          else parseValue value rest
      | .json =>
          if (value.toList.head? = some '{' ∧ value.toList.getLast? = some '}') ∨
             (value.toList.head? = some '[' ∧ value.toList.getLast? = some ']') then
            match Js.jsonParse value with
            | some v => .ok (v, .json)
            | Option.none => parseValue value rest
          else parseValue value rest
      | .string => .ok (.vStr value, .string)
      | .none => parseValue value rest

/-- The overridable error-message templates (`textErrorEmiters`). -/
structure TextErrorEmiters where
  unknownTrigger : String → String
  optionCannotBeRepeated : String → String
  missingValue : String → String
  tooManyValues : String → String
  parsingFailed : String → String → List String → String
  invalidValueFromMap : String → String → List String → String

/-- `arr.join(', ')`. -/
def joinComma : List String → String
  | [] => ""
  | [s] => s
  | s :: rest => s ++ ", " ++ joinComma rest

/-- `defaultTextErrorEmiters`: the default English messages. -/
def defaultTextErrorEmiters : TextErrorEmiters :=
  { unknownTrigger := fun trigger => "Unknown trigger: " ++ trigger
    optionCannotBeRepeated := fun target =>
      "Option for target '" ++ target ++ "' cannot be specified more than once."
    missingValue := fun trigger => "Option '" ++ trigger ++ "' requires a value."
    tooManyValues := fun trigger => "Option '" ++ trigger ++ "' does not accept multiple values."
    parsingFailed := fun trigger value types =>
      "For option '" ++ trigger ++ "', value '" ++ value ++
        "' could not be parsed into any of the allowed types: " ++ joinComma types
    invalidValueFromMap := fun trigger value allowed =>
      "Invalid value '" ++ value ++ "' for option '" ++ trigger ++ "'. Allowed values: " ++
        joinComma allowed }

/-- Split a token at its first `=` (the `eqIndex` logic): the left part is
the trigger candidate, the right part is the inline value when present. -/
def splitEq (s : String) : String × Option String :=
  match s.toList.span (fun c => c != '=') with
  | (_, []) => (s, Option.none)
  | (pre, _ :: tail) => (pre.asString, some tail.asString)

/-- `typeof e === 'object' && e !== null && 'value' in e ? e.value : e`: the
payload of a whitelist-map entry (arrays have no own `value` property, and
property access on primitives finds none). -/
def mapEntryValue (e : Value) : Value :=
  match e with
  | .vObj fs => if (fs.map Prod.fst).contains "value" then Obj.getField fs "value" else e
  | _ => e

/-- The per-raw-value processing loop of `parse` (step 6): the whitelist map
first — the raw value must be an exact key, and no coercion runs — else the
coercion engine; the first failure aborts with its message. -/
def processValues (option : OptC) (trigger : String) (em : TextErrorEmiters) :
    List String → Except String (List Value)
  | [] => .ok []
  | v :: rest =>
      match option.map with
      | some m =>
          match assocGet m v with
          | Option.none => .error (em.invalidValueFromMap trigger v (m.map Prod.fst))
          | some entry =>
              (processValues option trigger em rest).map (fun tl => mapEntryValue entry :: tl)
      | Option.none =>
          match parseValue v option.type with
          | .error _ => .error (em.parsingFailed trigger v (option.type.map ValueType.toStr))
          | .ok p => (processValues option trigger em rest).map (fun tl => p.1 :: tl)

/-- Forward value scanning (the inner `while (j < argvLen)` loop): consume
tokens until one resolves to a known trigger (splitting on `=` like the main
loop does); a non-array option stops after consuming one token. -/
def gatherValues (options : Parsed) (isArr : Bool) : List String → List String × List String
  | [] => ([], [])
  | a :: rest =>
      if (assocGet options (splitEq a).1).isSome then ([], a :: rest)
      else if isArr then
        let g := gatherValues options isArr rest
        (a :: g.1, g.2)
      else ([a], rest)

/-- Step 4 of the consumption loop: the raw values for the current token — an
inline `=` value is split on commas (an empty inline value yields zero raw
values), a `none`/`boolean` option never scans forward, anything else scans.
Returns the raw values and the remaining token stream. -/
def gatherStep (options : Parsed) (option : OptC) (valueStr : Option String)
    (rest : List String) : List String × List String :=
  match valueStr with
  | some s => (if s.length > 0 then Obj.splitOnChar ',' s.toList else [], rest)
  | Option.none =>
      if (option.type.contains .none || option.type.contains .boolean) = true then ([], rest)
      else gatherValues options option.isArray rest

/-- The array write (step 7): push all coerced values onto an existing array
at the target, else create the array there.  The source pushes in place into
the array object obtained from `Obj.get`, which is observably read, append
and write back at the same path. -/
def appendAtTarget (res : Value) (target : String) (parsedValues : List Value) : Value :=
  match Obj.get res target with
  | .vArr existing => Obj.set res target (.vArr (existing ++ parsedValues))
  | _ => Obj.set res target (.vArr parsedValues)

/-- One step of building the target-keyed deduplication at the start of
`parse`: register a mapping entry's target unless already present (first
option per target wins). -/
def addUnique (acc : List (String × OptC)) (p : String × OptC) : List (String × OptC) :=
  let target := getTarget p.2
  if (assocGet acc target).isSome then acc else acc ++ [(target, p.2)]

/-- The target-keyed deduplication (`uniqueOptions`): the first registered
option per distinct target, in mapping iteration order. -/
def uniqueOptions (options : Parsed) : List (String × OptC) :=
  options.foldl addUnique []

/-- One step of the finalization pass: write the entry's default at its
target iff the target was never touched and a default is declared. -/
def applyDefault (seen : List String) (r : Value) (p : String × OptC) : Value :=
  if p.1 ∈ seen ∨ p.2.default.isUndefined = true then r else Obj.set r p.1 p.2.default

/-- The finalization pass (step 8) over all unique targets. -/
def applyDefaults (options : Parsed) (seen : List String) (res : Value) : Value :=
  (uniqueOptions options).foldl (applyDefault seen) res

/-- The argument-consumption loop of `CmdLine.parse`, indexed by fuel so that
the definition is structurally recursive (the kernel can evaluate it); the
loop consumes at least one token per iteration, so `parse` supplies
`argv.length` fuel and the out-of-fuel case is unreachable.  State: the
remaining tokens, the result under construction, and the `seenTargets` set
(a list used only through membership). -/
def consumeLoopFuel (options : Parsed) (em : TextErrorEmiters) :
    Nat → List String → Value → List String → Except String (Value × List String)
  | _, [], res, seen => .ok (res, seen)
  | 0, _ :: _, _, _ => .error "out of fuel"
  | fuel + 1, rawArg :: rest, res, seen =>
      let tv := splitEq rawArg
      let trigger := tv.1
      match assocGet options trigger with
      | Option.none => .error (em.unknownTrigger trigger)
      | some option =>
          let target := getTarget option
          if option.isArray = false ∧ target ∈ seen then
            .error (em.optionCannotBeRepeated target)
          else
            let seen' := seen.insert target
            let g := gatherStep options option tv.2 rest
            let valuesToParse := g.1
            if option.type.contains .none = true then
              consumeLoopFuel options em fuel g.2 (Obj.set res target (.vBool true)) seen'
            else if valuesToParse.isEmpty then
              (if option.type.contains .boolean = true then
                consumeLoopFuel options em fuel g.2 (Obj.set res target (.vBool true)) seen'
               else .error (em.missingValue trigger))
            else if option.isArray = false ∧ 1 < valuesToParse.length then
              .error (em.tooManyValues trigger)
            else
              match processValues option trigger em valuesToParse with
              | .error e => .error e
              | .ok parsedValues =>
                  let res' :=
                    if option.isArray then appendAtTarget res target parsedValues
                    else Obj.set res target (parsedValues.headD .vUndefined)
                  consumeLoopFuel options em fuel g.2 res' seen'

/-- The argument-consumption loop at its canonical fuel. -/
def consumeLoop (options : Parsed) (em : TextErrorEmiters) (argv : List String)
    (res : Value) (seen : List String) : Except String (Value × List String) :=
  consumeLoopFuel options em argv.length argv res seen

/-- `CmdLine.parse` on a pre-split token list: run the consumption loop, then
apply the defaults pass; an error string models the early `return` of a
message instead of a result. -/
def parse (options : Parsed) (argv : List String) (em : TextErrorEmiters) :
    Except String Value :=
  match consumeLoop options em argv (.vObj []) [] with
  | .error e => .error e
  | .ok rs => .ok (applyDefaults options rs.2 rs.1)

/-- `CmdLine.parse` on a raw argument line: string input is tokenized first. -/
def parseString (options : Parsed) (line : String) (em : TextErrorEmiters) :
    Except String Value :=
  parse options (stringToArgv line) em

end CmdLine

namespace CmdLine

/-- Concrete descriptor: an array-typed string option `--tag`. -/
def tagDescriptor : Opt :=
  { triggers := ["--tag"], isArray := true, type := .one .string }

/-- Concrete descriptor: a plain string option `-i`. -/
def iDescriptor : Opt :=
  { triggers := ["-i"], type := .one .string }

/-- Concrete descriptor: a boolean-only flag `--b`. -/
def bDescriptor : Opt :=
  { triggers := ["--b"], type := .one .boolean }

/-- Concrete descriptor: a `none`-typed flag `--flag` that also carries a
whitelist map (to exhibit that the map is ignored on the `none` path). -/
def flagDescriptor : Opt :=
  { triggers := ["--flag"], type := .one .none, map := some [("a", .vStr "A")] }

/-- Concrete descriptor: an integer option `--level` with default 3. -/
def levelDescriptor : Opt :=
  { triggers := ["--level"], type := .one .integer, default := .vNum 3 }

/-- Concrete descriptor: a whitelisted string option `--mode`. -/
def modeDescriptor : Opt :=
  { triggers := ["--mode"], type := .one .string, map := some [("fast", .vStr "MODE_FAST")] }

/-- Concrete descriptor: a `none`-typed flag with aliases `-v`/`--verbose`. -/
def verboseDescriptor : Opt :=
  { triggers := ["-v", "--verbose"], type := .one .none }

end CmdLine

/-! ### Basic lemmas about the `Obj` path helpers -/

namespace Obj

theorem asString_toList (s : String) : s.toList.asString = s := rfl

theorem splitOnCharAux_no_sep (sep : Char) :
    ∀ (cs : List Char) (cur : List Char), sep ∉ cs →
      splitOnCharAux sep cur cs = [(cur ++ cs).asString] := by
  intro cs
  induction cs with
  | nil => intro cur _; simp [splitOnCharAux]
  | cons c rest ih =>
      intro cur h
      have hc : ¬(c = sep) := fun hh => h (by rw [← hh]; exact List.mem_cons_self c rest)
      have hr : sep ∉ rest := fun hm => h (List.mem_cons_of_mem c hm)
      simp only [splitOnCharAux, if_neg hc, ih (cur ++ [c]) hr, List.append_assoc,
        List.singleton_append]

/-- A "plain" property-name path: free of `.` and `[`, so that
`pathToSegments` leaves it as a single segment. -/
def plainKey (s : String) : Prop := '.' ∉ s.toList ∧ '[' ∉ s.toList

instance (s : String) : Decidable (plainKey s) := by
  unfold plainKey
  infer_instance

theorem brAux_no_bracket : ∀ cs : List Char, '[' ∉ cs → brAux Option.none cs = cs := by
  intro cs
  induction cs with
  | nil => intro _; rfl
  | cons c rest ih =>
      intro h
      have hc : ¬(c = '[') := fun hh => h (by rw [← hh]; exact List.mem_cons_self c rest)
      have hr : '[' ∉ rest := fun hm => h (List.mem_cons_of_mem c hm)
      simp only [brAux, if_neg hc, ih hr]

theorem pathToSegments_plain (s : String) (h : plainKey s) : pathToSegments s = [s] := by
  unfold pathToSegments splitOnChar
  rw [brAux_no_bracket s.toList h.2, splitOnCharAux_no_sep '.' s.toList [] h.1,
    List.nil_append, asString_toList]

theorem getField_setField_self (k : String) (v : Value) :
    ∀ fs : List (String × Value), getField (setField fs k v) k = v := by
  intro fs
  induction fs with
  | nil => simp [setField, getField]
  | cons p rest ih =>
      by_cases hk : p.1 = k
      · obtain ⟨p1, p2⟩ := p
        simp only at hk
        subst hk
        simp [setField, getField]
      · obtain ⟨p1, p2⟩ := p
        simp only at hk
        simp only [setField, if_neg hk, getField]
        rw [if_neg (fun hh => hk hh.symm), ih]

theorem getField_setField_ne (k k' : String) (v : Value) (hne : k' ≠ k) :
    ∀ fs : List (String × Value), getField (setField fs k v) k' = getField fs k' := by
  intro fs
  induction fs with
  | nil => simp [setField, getField, if_neg hne]
  | cons p rest ih =>
      obtain ⟨p1, p2⟩ := p
      by_cases hk : p1 = k
      · subst hk
        simp only [setField, if_pos rfl, getField, if_neg hne]
      · simp only [setField, if_neg hk, getField]
        by_cases hk' : k' = p1
        · rw [if_pos hk', if_pos hk']
        · rw [if_neg hk', if_neg hk', ih]

theorem get_plain (fs : List (String × Value)) (k : String) (h : plainKey k) :
    get (.vObj fs) k = getField fs k := by
  unfold get
  rw [pathToSegments_plain k h]
  show (if (Value.vObj fs).isUndefinedOrNull = true then Value.vUndefined
    else if (getKey (Value.vObj fs) k).isUndefined = true then Value.vUndefined
    else getSegs (getKey (Value.vObj fs) k) []) = getField fs k
  simp only [Value.isUndefinedOrNull, getKey, getSegs, Bool.false_eq_true, if_false]
  cases hc : getField fs k <;> simp [Value.isUndefined]

theorem set_plain (fs : List (String × Value)) (k : String) (v : Value) (h : plainKey k) :
    set (.vObj fs) k v = .vObj (setField fs k v) := by
  unfold set
  rw [pathToSegments_plain k h]
  rfl

end Obj

/-! ### Lemmas about the tokenizer -/

namespace CmdLine

theorem asString_eq_empty_iff (cs : List Char) : cs.asString = "" ↔ cs = [] :=
  ⟨fun h => congrArg String.toList h, fun h => by rw [h]; rfl⟩

theorem stringToArgvAux_nonempty :
    ∀ (cs : List Char) (args : List String) (cur : List Char) (iq esc : Bool),
      (∀ t ∈ args, t ≠ "") → ∀ t ∈ stringToArgvAux args cur iq esc cs, t ≠ "" := by
  intro cs
  induction cs with
  | nil =>
      intro args cur iq esc hargs t ht
      simp only [stringToArgvAux] at ht
      by_cases hl : cur.length > 0
      · rw [if_pos hl] at ht
        rcases List.mem_append.mp ht with h1 | h2
        · exact hargs t h1
        · have he : t = cur.asString := by simpa using h2
          subst he
          intro hempty
          have : cur = [] := (asString_eq_empty_iff cur).mp hempty
          rw [this] at hl
          simp at hl
      · rw [if_neg hl] at ht
        exact hargs t ht
  | cons c rest ih =>
      intro args cur iq esc hargs t ht
      simp only [stringToArgvAux] at ht
      split_ifs at ht with h1 h2 h3 h4 h5
      · exact ih args (cur ++ [c]) iq false hargs t ht
      · exact ih args cur iq true hargs t ht
      · exact ih args cur (!iq) esc hargs t ht
      · refine ih (args ++ [cur.asString]) [] iq esc ?_ t ht
        intro u hu
        rcases List.mem_append.mp hu with hu1 | hu2
        · exact hargs u hu1
        · have : u = cur.asString := by simpa using hu2
          subst this
          intro hempty
          have : cur = [] := (asString_eq_empty_iff cur).mp hempty
          rw [this] at h5
          simp at h5
      · exact ih args cur iq esc hargs t ht
      · exact ih args (cur ++ [c]) iq esc hargs t ht

theorem stringToArgvAux_no_syntax_chars :
    ∀ (cs : List Char) (args : List String) (cur : List Char) (iq : Bool),
      '\\' ∉ cs →
      (∀ t ∈ args, '"' ∉ t.toList ∧ '\\' ∉ t.toList) →
      ('"' ∉ cur ∧ '\\' ∉ cur) →
      ∀ t ∈ stringToArgvAux args cur iq false cs, '"' ∉ t.toList ∧ '\\' ∉ t.toList := by
  intro cs
  induction cs with
  | nil =>
      intro args cur iq _ hargs hcur t ht
      simp only [stringToArgvAux] at ht
      by_cases hl : cur.length > 0
      · rw [if_pos hl] at ht
        rcases List.mem_append.mp ht with h1 | h2
        · exact hargs t h1
        · have he : t = cur.asString := by simpa using h2
          subst he
          exact hcur
      · rw [if_neg hl] at ht
        exact hargs t ht
  | cons c rest ih =>
      intro args cur iq hcs hargs hcur t ht
      have hcrest : '\\' ∉ rest := fun hm => hcs (List.mem_cons_of_mem c hm)
      have hcne : ¬(c = '\\') := fun hh => hcs (by rw [← hh]; exact List.mem_cons_self c rest)
      simp only [stringToArgvAux] at ht
      rw [if_neg Bool.false_ne_true, if_neg hcne] at ht
      by_cases hq : c = '"'
      · rw [if_pos hq] at ht
        exact ih args cur (!iq) hcrest hargs hcur t ht
      · rw [if_neg hq] at ht
        have hext : '"' ∉ cur ++ [c] ∧ '\\' ∉ cur ++ [c] := by
          constructor
          · intro hm
            rcases List.mem_append.mp hm with hm1 | hm2
            · exact hcur.1 hm1
            · exact hq (show ('"' : Char) = c by simpa using hm2).symm
          · intro hm
            rcases List.mem_append.mp hm with hm1 | hm2
            · exact hcur.2 hm1
            · exact hcne (show ('\\' : Char) = c by simpa using hm2).symm
        split_ifs at ht with h4 h5
        · refine ih (args ++ [cur.asString]) [] iq hcrest ?_ (by simp) t ht
          intro u hu
          rcases List.mem_append.mp hu with hu1 | hu2
          · exact hargs u hu1
          · have : u = cur.asString := by simpa using hu2
            subst this
            exact hcur
        · exact ih args cur iq hcrest hargs hcur t ht
        · exact ih args (cur ++ [c]) iq hcrest hargs hext t ht

end CmdLine

/-- C8 — the tokenizer produces no empty tokens: every token of
`stringToArgv` is non-empty (adjacent separators yield no token, and an
argument consisting solely of `""` is dropped), and — absent escaping — quote
and backslash characters are consumed as syntax, never retained in tokens;
the concrete conjuncts exhibit adjacent separators and the dropped empty
quoted string. -/
theorem claim_C8 :
    (∀ (line : String), ∀ t ∈ CmdLine.stringToArgv line, t ≠ "") ∧
    (∀ (line : String), '\\' ∉ line.toList →
      ∀ t ∈ CmdLine.stringToArgv line, '"' ∉ t.toList ∧ '\\' ∉ t.toList) ∧
    CmdLine.stringToArgv "a  b" = ["a", "b"] ∧
    CmdLine.stringToArgv "\"\"" = [] ∧
    CmdLine.stringToArgv "a \"\" b" = ["a", "b"] := by
  refine ⟨?_, ?_, rfl, rfl, rfl⟩
  · intro line t ht
    exact CmdLine.stringToArgvAux_nonempty line.toList [] [] false false
      (by intro u hu; simp at hu) t ht
  · intro line hbs t ht
    exact CmdLine.stringToArgvAux_no_syntax_chars line.toList [] [] false hbs
      (by intro u hu; simp at hu) (by simp) t ht

/-- Witness for C8 at a concrete tokenizer run: membership hypotheses are
discharged on `stringToArgv "a  b" = ["a", "b"]`. -/
theorem claim_C8_witness :
    ("a" ∈ CmdLine.stringToArgv "a  b") ∧ "a" ≠ "" ∧
      ('"' ∉ ("a" : String).toList ∧ '\\' ∉ ("a" : String).toList) := by
  refine ⟨by decide, claim_C8.1 "a  b" "a" (by decide), ?_⟩
  exact claim_C8.2.1 "a  b" (by decide) "a" (by decide)

/-! ### Lemmas about option compilation (`Options.parse`) -/

namespace CmdLine

theorem assocGet_recordSet {α : Type} (k k' : String) (v : α) :
    ∀ m : List (String × α),
      assocGet (recordSet m k v) k' = if k' = k then some v else assocGet m k' := by
  intro m
  induction m with
  | nil => simp [recordSet, assocGet]
  | cons p rest ih =>
      obtain ⟨k0, v0⟩ := p
      by_cases h0 : k0 = k
      · subst h0
        by_cases h' : k' = k0 <;> simp [recordSet, assocGet, h']
      · by_cases h' : k' = k0
        · subst h'
          simp [recordSet, assocGet, h0]
        · simp [recordSet, assocGet, h0, h', ih]

theorem assocGet_registerTriggers (oc : OptC) :
    ∀ (ts : List String) (acc : Parsed × List String) (t : String),
      assocGet (ts.foldl (registerTrigger oc) acc).1 t =
        if t ∈ ts then some oc else assocGet acc.1 t := by
  intro ts
  induction ts with
  | nil => intro acc t; simp
  | cons tr ts ih =>
      intro acc t
      rw [List.foldl_cons, ih]
      by_cases hts : t ∈ ts
      · rw [if_pos hts, if_pos (List.mem_cons_of_mem tr hts)]
      · rw [if_neg hts]
        show assocGet (registerTrigger oc acc tr).1 t = _
        simp only [registerTrigger]
        rw [assocGet_recordSet]
        by_cases htr : t = tr
        · subst htr
          rw [if_pos rfl, if_pos (List.mem_cons_self t ts)]
        · rw [if_neg htr, if_neg (by simp [htr, hts] : ¬t ∈ tr :: ts)]

theorem warnings_mono_registerTriggers (oc : OptC) :
    ∀ (ts : List String) (acc : Parsed × List String) (w : String),
      w ∈ acc.2 → w ∈ (ts.foldl (registerTrigger oc) acc).2 := by
  intro ts
  induction ts with
  | nil => intro acc w h; exact h
  | cons tr ts ih =>
      intro acc w h
      rw [List.foldl_cons]
      refine ih _ w ?_
      simp only [registerTrigger]
      by_cases hp : (assocGet acc.1 tr).isSome
      · rw [if_pos hp]
        exact List.mem_append_left _ h
      · rw [if_neg hp]
        exact h

theorem dup_mem_registerTriggers (oc : OptC) :
    ∀ (ts : List String) (acc : Parsed × List String) (t : String),
      (assocGet acc.1 t).isSome → t ∈ ts →
      dupMsg t ∈ (ts.foldl (registerTrigger oc) acc).2 := by
  intro ts
  induction ts with
  | nil => intro acc t _ hmem; exact absurd hmem (List.not_mem_nil t)
  | cons tr ts ih =>
      intro acc t hp hmem
      rw [List.foldl_cons]
      by_cases htr : t = tr
      · subst htr
        refine warnings_mono_registerTriggers oc ts _ (dupMsg t) ?_
        simp only [registerTrigger, if_pos hp]
        exact List.mem_append_right _ (List.mem_cons_self _ _)
      · have hmem' : t ∈ ts := by
          rcases List.mem_cons.mp hmem with h | h
          · exact absurd h htr
          · exact h
        refine ih _ t ?_ hmem'
        simp only [registerTrigger]
        rw [assocGet_recordSet]
        by_cases heq : t = tr
        · exact absurd heq htr
        · rw [if_neg heq]; exact hp

theorem assocGet_stepOption (acc : Parsed × List String) (o : Opt) (t : String) :
    assocGet (stepOption acc o).1 t =
      if t ∈ o.triggers then some (compileOpt o) else assocGet acc.1 t :=
  assocGet_registerTriggers (compileOpt o) o.triggers acc t

theorem isSome_mono_stepOption (acc : Parsed × List String) (o : Opt) (t : String)
    (h : (assocGet acc.1 t).isSome) : (assocGet (stepOption acc o).1 t).isSome := by
  rw [assocGet_stepOption]
  by_cases hm : t ∈ o.triggers
  · rw [if_pos hm]; rfl
  · rw [if_neg hm]; exact h

theorem warnings_mono_foldl :
    ∀ (os : List Opt) (acc : Parsed × List String) (w : String),
      w ∈ acc.2 → w ∈ (os.foldl stepOption acc).2 := by
  intro os
  induction os with
  | nil => intro acc w h; exact h
  | cons o rest ih =>
      intro acc w h
      rw [List.foldl_cons]
      exact ih _ w (warnings_mono_registerTriggers (compileOpt o) o.triggers acc w h)

theorem isSome_mono_foldl :
    ∀ (os : List Opt) (acc : Parsed × List String) (t : String),
      (assocGet acc.1 t).isSome → (assocGet ((os.foldl stepOption acc).1) t).isSome := by
  intro os
  induction os with
  | nil => intro acc t h; exact h
  | cons o rest ih =>
      intro acc t h
      rw [List.foldl_cons]
      exact ih _ t (isSome_mono_stepOption acc o t h)

theorem assocGet_foldl_stepOption :
    ∀ (os : List Opt) (acc : Parsed × List String) (t : String),
      assocGet (os.foldl stepOption acc).1 t =
        ((os.reverse.find? (fun o => decide (t ∈ o.triggers))).map compileOpt).or
          (assocGet acc.1 t) := by
  intro os
  induction os with
  | nil => intro acc t; simp
  | cons o rest ih =>
      intro acc t
      rw [List.foldl_cons, ih, List.reverse_cons, List.find?_append]
      cases hf : rest.reverse.find? (fun o => decide (t ∈ o.triggers)) with
      | some o2 => simp
      | none =>
          have hone : List.find? (fun o => decide (t ∈ o.triggers)) [o] =
              if t ∈ o.triggers then some o else Option.none := by
            by_cases hm : t ∈ o.triggers <;> simp [List.find?, hm]
          simp only [Option.none_or, hone]
          rw [assocGet_stepOption]
          by_cases hm : t ∈ o.triggers
          · simp [hm]
          · simp [hm]

theorem mem_isSome_foldl :
    ∀ (os : List Opt) (acc : Parsed × List String) (t : String),
      (∃ o ∈ os, t ∈ o.triggers) →
      (assocGet ((os.foldl stepOption acc).1) t).isSome := by
  intro os
  induction os with
  | nil => intro acc t h; obtain ⟨o, ho, _⟩ := h; exact absurd ho (List.not_mem_nil o)
  | cons o rest ih =>
      intro acc t h
      rw [List.foldl_cons]
      obtain ⟨o2, ho2, ht⟩ := h
      rcases List.mem_cons.mp ho2 with he | he
      · subst he
        refine isSome_mono_foldl rest _ t ?_
        rw [assocGet_stepOption, if_pos ht]
        rfl
      · exact ih _ t ⟨o2, he, ht⟩

end CmdLine

/-- C9 — compilation never fails and later duplicates win: `Options.parse`
totally computes a mapping whose lookup at any trigger is the compiled form
of the *last* descriptor declaring that trigger (so a later duplicate
overwrites the earlier mapping and other entries are unaffected), and a
trigger declared by two descriptors additionally raises the non-fatal
"duplicate trigger" diagnostic to the log sink. -/
theorem claim_C9 (os A B C : List CmdLine.Opt) (oi oj : CmdLine.Opt) (t : String)
    (hos : os = A ++ oi :: B ++ oj :: C)
    (hti : t ∈ oi.triggers) (htj : t ∈ oj.triggers) :
    (∀ t' : String,
        CmdLine.assocGet (CmdLine.Options.parse os) t' =
          (os.reverse.find? (fun o => decide (t' ∈ o.triggers))).map CmdLine.compileOpt) ∧
    CmdLine.dupMsg t ∈ CmdLine.Options.parseWarnings os := by
  constructor
  · intro t'
    show CmdLine.assocGet (os.foldl CmdLine.stepOption ([], [])).1 t' = _
    rw [CmdLine.assocGet_foldl_stepOption os ([], []) t']
    show _ = ((os.reverse.find? (fun o => decide (t' ∈ o.triggers))).map CmdLine.compileOpt)
    cases hf : (os.reverse.find? (fun o => decide (t' ∈ o.triggers))).map CmdLine.compileOpt with
    | some o2 => simp
    | none => simp [CmdLine.assocGet]
  · subst hos
    show CmdLine.dupMsg t ∈ ((A ++ oi :: B ++ oj :: C).foldl CmdLine.stepOption ([], [])).2
    rw [List.foldl_append, List.foldl_cons, List.foldl_append, List.foldl_cons]
    refine CmdLine.warnings_mono_foldl C _ _ ?_
    refine CmdLine.dup_mem_registerTriggers (CmdLine.compileOpt oj) oj.triggers _ t ?_ htj
    refine CmdLine.isSome_mono_foldl B _ t ?_
    rw [CmdLine.assocGet_stepOption, if_pos hti]
    rfl

namespace CmdLine

/-- Concrete descriptor: first declaration of the duplicated trigger `-d`. -/
def dup1Descriptor : Opt :=
  { triggers := ["-d"], type := .one .none }

/-- Concrete descriptor: second declaration of the duplicated trigger `-d`. -/
def dup2Descriptor : Opt :=
  { triggers := ["-d"], type := .one .string, target := some "dd" }

end CmdLine

/-- Witness for C9: a two-descriptor list sharing the trigger `-d`. -/
theorem claim_C9_witness :
    ([CmdLine.dup1Descriptor, CmdLine.dup2Descriptor] =
      [] ++ CmdLine.dup1Descriptor :: [] ++ CmdLine.dup2Descriptor :: []) ∧
    ("-d" ∈ CmdLine.dup1Descriptor.triggers ∧ "-d" ∈ CmdLine.dup2Descriptor.triggers) ∧
    ((∀ t' : String,
        CmdLine.assocGet
            (CmdLine.Options.parse [CmdLine.dup1Descriptor, CmdLine.dup2Descriptor]) t' =
          ([CmdLine.dup1Descriptor, CmdLine.dup2Descriptor].reverse.find?
              (fun o => decide (t' ∈ o.triggers))).map CmdLine.compileOpt) ∧
      CmdLine.dupMsg "-d" ∈
        CmdLine.Options.parseWarnings [CmdLine.dup1Descriptor, CmdLine.dup2Descriptor]) :=
  ⟨rfl, ⟨by decide, by decide⟩,
    claim_C9 [CmdLine.dup1Descriptor, CmdLine.dup2Descriptor] [] [] []
      CmdLine.dup1Descriptor CmdLine.dup2Descriptor "-d" rfl (by decide) (by decide)⟩

/-! ### Lemmas about the type-precedence sort and the coercion engine -/

namespace CmdLine

instance : IsTotal ValueType (fun a b => typeIdx a ≤ typeIdx b) :=
  ⟨fun a b => Nat.le_total (typeIdx a) (typeIdx b)⟩

instance : IsTrans ValueType (fun a b => typeIdx a ≤ typeIdx b) :=
  ⟨fun _ _ _ hab hbc => Nat.le_trans hab hbc⟩

theorem sortTypes_pairwise (ts : List ValueType) :
    List.Pairwise (fun a b => typeIdx a ≤ typeIdx b) (sortTypes ts) :=
  List.sorted_insertionSort (fun a b => typeIdx a ≤ typeIdx b) ts

theorem mem_sortTypes (a : ValueType) (ts : List ValueType) :
    a ∈ sortTypes ts ↔ a ∈ ts :=
  (List.perm_insertionSort (fun a b => typeIdx a ≤ typeIdx b) ts).mem_iff

/-- Any lookup hit in a compiled mapping is the compiled form of some
descriptor. -/
theorem assocGet_optionsParse_shape (os : List Opt) (tr : String) (o : OptC)
    (h : assocGet (Options.parse os) tr = some o) : ∃ o2 : Opt, o = compileOpt o2 := by
  have hh := assocGet_foldl_stepOption os ([], []) tr
  have h2 : assocGet (Options.parse os) tr =
      ((os.reverse.find? (fun o2 => decide (tr ∈ o2.triggers))).map compileOpt).or
        (assocGet ([] : Parsed) tr) := hh
  rw [h2] at h
  cases hf : os.reverse.find? (fun o2 => decide (tr ∈ o2.triggers)) with
  | some o2 =>
      rw [hf] at h
      simp at h
      exact ⟨o2, h.symm⟩
  | none =>
      rw [hf] at h
      simp [assocGet] at h

theorem isNumericString_42 : isNumericString "42" = true := by decide

theorem parseFloat_42 : Js.parseFloat "42" = 42 := by
  simp +decide [Js.parseFloat, Js.parseDecPrefix, Js.spanDigits, Obj.digitsVal]

theorem parseInt_42 : ((Js.parseInt "42").getD 0 : Int) = 42 := by decide

/-- Coercing `"42"` over any precedence-sorted type list containing both
`integer` and `string` yields the number 42 via `float` or `integer`, never
the string. -/
theorem parseValue_42_sorted :
    ∀ l : List ValueType, List.Pairwise (fun a b => typeIdx a ≤ typeIdx b) l →
      ValueType.integer ∈ l → ValueType.string ∈ l →
      ∃ tt : ValueType, parseValue "42" l = .ok (.vNum 42, tt) ∧ tt ≠ .string := by
  intro l
  induction l with
  | nil => intro _ hi _; exact absurd hi (List.not_mem_nil _)
  | cons t0 rest ih =>
      intro hp hi hs
      obtain ⟨hhead, hp2⟩ := List.pairwise_cons.mp hp
      cases t0 with
      | none =>
          have hi2 : ValueType.integer ∈ rest := by
            rcases List.mem_cons.mp hi with h | h
            · exact absurd h (by decide)
            · exact h
          have hs2 : ValueType.string ∈ rest := by
            rcases List.mem_cons.mp hs with h | h
            · exact absurd h (by decide)
            · exact h
          simpa [parseValue] using ih hp2 hi2 hs2
      | float =>
          refine ⟨.float, ?_, by decide⟩
          rw [show parseValue "42" (.float :: rest) =
            .ok (.vNum (Js.parseFloat "42"), .float) by simp [parseValue, isNumericString_42]]
          rw [parseFloat_42]
      | integer =>
          refine ⟨.integer, ?_, by decide⟩
          have hc : ("42".toList.contains '.') = false := by decide
          rw [show parseValue "42" (.integer :: rest) =
            .ok (.vNum (((Js.parseInt "42").getD 0 : Int) : ℚ), .integer) by
              simp [parseValue, isNumericString_42, hc]]
          rw [parseInt_42]
          norm_num
      | boolean =>
          have hi2 : ValueType.integer ∈ rest := by
            rcases List.mem_cons.mp hi with h | h
            · exact absurd h (by decide)
            · exact h
          have hs2 : ValueType.string ∈ rest := by
            rcases List.mem_cons.mp hs with h | h
            · exact absurd h (by decide)
            · exact h
          have hb : parseValue "42" (.boolean :: rest) = parseValue "42" rest := by
            simp +decide [parseValue]
          rw [hb]
          exact ih hp2 hi2 hs2
      | json =>
          have hi2 : ValueType.integer ∈ rest := by
            rcases List.mem_cons.mp hi with h | h
            · exact absurd h (by decide)
            · exact h
          have hs2 : ValueType.string ∈ rest := by
            rcases List.mem_cons.mp hs with h | h
            · exact absurd h (by decide)
            · exact h
          have hj : parseValue "42" (.json :: rest) = parseValue "42" rest := by
            simp +decide [parseValue]
          rw [hj]
          exact ih hp2 hi2 hs2
      | string =>
          exfalso
          have hi2 : ValueType.integer ∈ rest := by
            rcases List.mem_cons.mp hi with h | h
            · exact absurd h (by decide)
            · exact h
          have := hhead ValueType.integer hi2
          revert this
          decide

/-- Concrete descriptor: types declared in the order `[string, integer]`. -/
def mixedDescriptor : Opt :=
  { triggers := ["-n"], type := .many [.string, .integer] }

end CmdLine

/-- C1 — type precedence law: for every option of a compiled mapping whose
accepted type list contains both `integer` and `string` (declared in any
order — compilation sorts every list into the fixed precedence
`none < float < integer < boolean < json < string`), coercing the raw value
`"42"` yields the number 42 (via `integer`, or `float` when that is also
declared) and never the string `"42"`, because coercion tries the types
strictly in sorted order and first success wins. -/
theorem claim_C1 (os : List CmdLine.Opt) (tr : String) (o : CmdLine.OptC)
    (hlook : CmdLine.assocGet (CmdLine.Options.parse os) tr = some o)
    (hi : CmdLine.ValueType.integer ∈ o.type)
    (hs : CmdLine.ValueType.string ∈ o.type) :
    ∃ tt : CmdLine.ValueType,
      CmdLine.parseValue "42" o.type = .ok (.vNum 42, tt) ∧ tt ≠ .string := by
  obtain ⟨o2, rfl⟩ := CmdLine.assocGet_optionsParse_shape os tr o hlook
  exact CmdLine.parseValue_42_sorted _ (CmdLine.sortTypes_pairwise _) hi hs

/-- Witness for C1: the descriptor declares `[string, integer]` (string
first), yet `"42"` coerces to the number 42 with matched type `integer`. -/
theorem claim_C1_witness :
    (CmdLine.assocGet (CmdLine.Options.parse [CmdLine.mixedDescriptor]) "-n" =
      some (CmdLine.compileOpt CmdLine.mixedDescriptor)) ∧
    (CmdLine.ValueType.integer ∈ (CmdLine.compileOpt CmdLine.mixedDescriptor).type ∧
     CmdLine.ValueType.string ∈ (CmdLine.compileOpt CmdLine.mixedDescriptor).type) ∧
    (∃ tt : CmdLine.ValueType,
      CmdLine.parseValue "42" (CmdLine.compileOpt CmdLine.mixedDescriptor).type =
        .ok (.vNum 42, tt) ∧ tt ≠ .string) :=
  ⟨rfl, ⟨by decide, by decide⟩,
    claim_C1 [CmdLine.mixedDescriptor] "-n" (CmdLine.compileOpt CmdLine.mixedDescriptor)
      rfl (by decide) (by decide)⟩

/-! ### Lemmas about the consumption loop -/

namespace CmdLine

theorem gatherValues_rest_le (options : Parsed) (isArr : Bool) :
    ∀ l : List String, (gatherValues options isArr l).2.length ≤ l.length := by
  intro l
  induction l with
  | nil => simp [gatherValues]
  | cons a rest ih =>
      simp only [gatherValues]
      by_cases h1 : (assocGet options (splitEq a).1).isSome
      · rw [if_pos h1]
      · rw [if_neg h1]
        cases isArr with
        | false => simp
        | true =>
            simp only [if_pos rfl]
            exact Nat.le_trans ih (Nat.le_succ _)

theorem gatherStep_rest_le (options : Parsed) (o : OptC) (vs : Option String)
    (rest : List String) : (gatherStep options o vs rest).2.length ≤ rest.length := by
  cases vs with
  | some s => simp [gatherStep]
  | none =>
      simp only [gatherStep]
      by_cases h : (o.type.contains .none || o.type.contains .boolean) = true
      · rw [if_pos h]
      · rw [if_neg h]
        exact gatherValues_rest_le options o.isArray rest

theorem containsVT_iff (l : List ValueType) (a : ValueType) : l.contains a = true ↔ a ∈ l :=
  List.elem_iff

end CmdLine

/-- C2 — unknown trigger is terminal: whenever the consumption loop reaches a
token whose trigger candidate (the token, or its prefix before `=`) is not a
key of the compiled mapping — whatever the loop state accumulated so far —
it returns the unknown-trigger error for that candidate, and `CmdLine.parse`
on such a token sequence returns that error and no result structure. -/
theorem claim_C2 (opts : CmdLine.Parsed) (em : CmdLine.TextErrorEmiters)
    (res : Value) (seen : List String) (tok : String) (rest : List String)
    (h : CmdLine.assocGet opts (CmdLine.splitEq tok).1 = Option.none) :
    CmdLine.consumeLoop opts em (tok :: rest) res seen =
      .error (em.unknownTrigger (CmdLine.splitEq tok).1) ∧
    CmdLine.parse opts (tok :: rest) em =
      .error (em.unknownTrigger (CmdLine.splitEq tok).1) := by
  have hl : ∀ (r : Value) (s : List String),
      CmdLine.consumeLoop opts em (tok :: rest) r s =
        .error (em.unknownTrigger (CmdLine.splitEq tok).1) := by
    intro r s
    show CmdLine.consumeLoopFuel opts em (tok :: rest).length (tok :: rest) r s = _
    rw [List.length_cons]
    simp [CmdLine.consumeLoopFuel, h]
  refine ⟨hl res seen, ?_⟩
  unfold CmdLine.parse
  rw [hl (.vObj []) []]

/-- Witness for C2: a mapping with only `--tag`, hit with the unknown token
`--zzz=1` (candidate `--zzz`). -/
theorem claim_C2_witness :
    (CmdLine.assocGet (CmdLine.Options.parse [CmdLine.tagDescriptor])
        (CmdLine.splitEq "--zzz=1").1 = Option.none) ∧
    (CmdLine.consumeLoop (CmdLine.Options.parse [CmdLine.tagDescriptor])
        CmdLine.defaultTextErrorEmiters ["--zzz=1", "--tag=a"] (.vObj []) [] =
      .error (CmdLine.defaultTextErrorEmiters.unknownTrigger
        (CmdLine.splitEq "--zzz=1").1) ∧
    CmdLine.parse (CmdLine.Options.parse [CmdLine.tagDescriptor]) ["--zzz=1", "--tag=a"]
        CmdLine.defaultTextErrorEmiters =
      .error (CmdLine.defaultTextErrorEmiters.unknownTrigger
        (CmdLine.splitEq "--zzz=1").1)) :=
  ⟨rfl, claim_C2 (CmdLine.Options.parse [CmdLine.tagDescriptor])
    CmdLine.defaultTextErrorEmiters (.vObj []) [] "--zzz=1" ["--tag=a"] rfl⟩

/-- C3 — non-array repetition is a hard error: whenever the loop processes a
trigger resolving to a non-array option whose target is already in the
seen-targets set of the same call, it returns the cannot-be-repeated error
for that target (never a silent overwrite); in particular the descriptor
`{triggers: ["-i"], type: "string"}` on `["-i", "a", "-i", "b"]` yields
exactly that error. -/
theorem claim_C3 (opts : CmdLine.Parsed) (em : CmdLine.TextErrorEmiters)
    (res : Value) (seen : List String) (tok : String) (rest : List String)
    (o : CmdLine.OptC)
    (h1 : CmdLine.assocGet opts (CmdLine.splitEq tok).1 = some o)
    (h2 : o.isArray = false)
    (h3 : CmdLine.getTarget o ∈ seen) :
    CmdLine.consumeLoop opts em (tok :: rest) res seen =
      .error (em.optionCannotBeRepeated (CmdLine.getTarget o)) ∧
    CmdLine.parse (CmdLine.Options.parse [CmdLine.iDescriptor]) ["-i", "a", "-i", "b"]
        CmdLine.defaultTextErrorEmiters =
      .error "Option for target 'i' cannot be specified more than once." := by
  refine ⟨?_, rfl⟩
  show CmdLine.consumeLoopFuel opts em (tok :: rest).length (tok :: rest) res seen = _
  rw [List.length_cons]
  simp [CmdLine.consumeLoopFuel, h1, h2, h3]

/-- Witness for C3: the repeated `-i` scenario, applied at the loop state
reached after the first `-i a` (target `i` already seen). -/
theorem claim_C3_witness :
    (CmdLine.assocGet (CmdLine.Options.parse [CmdLine.iDescriptor])
        (CmdLine.splitEq "-i").1 =
      some (CmdLine.compileOpt CmdLine.iDescriptor)) ∧
    ((CmdLine.compileOpt CmdLine.iDescriptor).isArray = false) ∧
    (CmdLine.getTarget (CmdLine.compileOpt CmdLine.iDescriptor) ∈ ["i"]) ∧
    (CmdLine.consumeLoop (CmdLine.Options.parse [CmdLine.iDescriptor])
        CmdLine.defaultTextErrorEmiters ["-i", "b"]
        (.vObj [("i", .vStr "a")]) ["i"] =
      .error (CmdLine.defaultTextErrorEmiters.optionCannotBeRepeated
        (CmdLine.getTarget (CmdLine.compileOpt CmdLine.iDescriptor))) ∧
    CmdLine.parse (CmdLine.Options.parse [CmdLine.iDescriptor]) ["-i", "a", "-i", "b"]
        CmdLine.defaultTextErrorEmiters =
      .error "Option for target 'i' cannot be specified more than once.") :=
  ⟨rfl, rfl, by decide,
    claim_C3 (CmdLine.Options.parse [CmdLine.iDescriptor]) CmdLine.defaultTextErrorEmiters
      (.vObj [("i", .vStr "a")]) ["i"] "-i" ["b"]
      (CmdLine.compileOpt CmdLine.iDescriptor) rfl rfl (by decide)⟩

/-- C7 — boolean/none options never consume a following token: when the loop
processes a trigger token carrying no inline `=` value whose option's type
list contains `none` or `boolean` (and the non-array repeat guard passes),
no forward scanning happens: zero raw values are gathered, the target is set
to boolean `true`, and the loop continues on the immediately following tokens
unchanged — so with a boolean-only option `--b`, input `["--b", "true"]`
resolves `"true"` as a trigger candidate and fails as unknown. -/
theorem claim_C7 (opts : CmdLine.Parsed) (em : CmdLine.TextErrorEmiters)
    (res : Value) (seen : List String) (tok : String) (rest : List String)
    (o : CmdLine.OptC)
    (h1 : (CmdLine.splitEq tok).2 = Option.none)
    (h2 : CmdLine.assocGet opts (CmdLine.splitEq tok).1 = some o)
    (h3 : CmdLine.ValueType.none ∈ o.type ∨ CmdLine.ValueType.boolean ∈ o.type)
    (h4 : o.isArray = true ∨ CmdLine.getTarget o ∉ seen) :
    CmdLine.consumeLoop opts em (tok :: rest) res seen =
      CmdLine.consumeLoop opts em rest
        (Obj.set res (CmdLine.getTarget o) (.vBool true))
        (seen.insert (CmdLine.getTarget o)) ∧
    CmdLine.parse (CmdLine.Options.parse [CmdLine.bDescriptor]) ["--b", "true"]
        CmdLine.defaultTextErrorEmiters = .error "Unknown trigger: true" := by
  refine ⟨?_, rfl⟩
  have hng : ¬(o.isArray = false ∧ CmdLine.getTarget o ∈ seen) := by
    rintro ⟨ha, hb⟩
    rcases h4 with h | h
    · rw [h] at ha; cases ha
    · exact h hb
  have hcb : (o.type.contains .none || o.type.contains .boolean) = true := by
    rcases h3 with h | h
    · rw [(CmdLine.containsVT_iff o.type .none).mpr h]; rfl
    · rw [(CmdLine.containsVT_iff o.type .boolean).mpr h, Bool.or_true]
  have hstep : CmdLine.gatherStep opts o (CmdLine.splitEq tok).2 rest = ([], rest) := by
    rw [h1]
    show CmdLine.gatherStep opts o Option.none rest = ([], rest)
    simp only [CmdLine.gatherStep]
    rw [if_pos hcb]
  show CmdLine.consumeLoopFuel opts em (tok :: rest).length (tok :: rest) res seen = _
  rw [List.length_cons]
  by_cases hnm : CmdLine.ValueType.none ∈ o.type
  · have hn : o.type.contains .none = true := (CmdLine.containsVT_iff o.type .none).mpr hnm
    simp only [CmdLine.consumeLoopFuel, h2, if_neg hng, hstep, if_pos hn]
    rfl
  · have hbm : CmdLine.ValueType.boolean ∈ o.type := h3.resolve_left hnm
    have hn2 : ¬(o.type.contains CmdLine.ValueType.none = true) :=
      fun hh => hnm ((CmdLine.containsVT_iff o.type .none).mp hh)
    have hb : o.type.contains .boolean = true :=
      (CmdLine.containsVT_iff o.type .boolean).mpr hbm
    simp only [CmdLine.consumeLoopFuel, h2, if_neg hng, hstep, if_neg hn2, if_pos hb]
    rfl

/-- Witness for C7: boolean-only `--b` followed by `"true"`; the step
equation is applied at the initial loop state. -/
theorem claim_C7_witness :
    ((CmdLine.splitEq "--b").2 = Option.none) ∧
    (CmdLine.assocGet (CmdLine.Options.parse [CmdLine.bDescriptor])
        (CmdLine.splitEq "--b").1 = some (CmdLine.compileOpt CmdLine.bDescriptor)) ∧
    (CmdLine.ValueType.none ∈ (CmdLine.compileOpt CmdLine.bDescriptor).type ∨
      CmdLine.ValueType.boolean ∈ (CmdLine.compileOpt CmdLine.bDescriptor).type) ∧
    (CmdLine.consumeLoop (CmdLine.Options.parse [CmdLine.bDescriptor])
        CmdLine.defaultTextErrorEmiters ["--b", "true"] (.vObj []) [] =
      CmdLine.consumeLoop (CmdLine.Options.parse [CmdLine.bDescriptor])
        CmdLine.defaultTextErrorEmiters ["true"]
        (Obj.set (.vObj []) (CmdLine.getTarget (CmdLine.compileOpt CmdLine.bDescriptor))
          (.vBool true))
        ([].insert (CmdLine.getTarget (CmdLine.compileOpt CmdLine.bDescriptor))) ∧
    CmdLine.parse (CmdLine.Options.parse [CmdLine.bDescriptor]) ["--b", "true"]
        CmdLine.defaultTextErrorEmiters = .error "Unknown trigger: true") :=
  ⟨rfl, rfl, Or.inr (by decide),
    claim_C7 (CmdLine.Options.parse [CmdLine.bDescriptor]) CmdLine.defaultTextErrorEmiters
      (.vObj []) [] "--b" ["true"] (CmdLine.compileOpt CmdLine.bDescriptor)
      rfl rfl (Or.inr (by decide)) (Or.inr (by decide))⟩

/-- C10 — a none-typed option silently discards inline values: when the loop
processes a token `trigger=value` whose option's type list contains `none`
(and the repeat guard passes), the target is set to boolean `true` and the
inline value is discarded — no coercion attempt, no whitelist check, no
error — because the `none` branch runs before value-count validation and
value processing; concretely, `--flag=xyz` with a whitelist map not
containing `xyz` still yields `{flag: true}`. -/
theorem claim_C10 (opts : CmdLine.Parsed) (em : CmdLine.TextErrorEmiters)
    (res : Value) (seen : List String) (tok : String) (rest : List String)
    (o : CmdLine.OptC) (trig vs : String)
    (h1 : CmdLine.splitEq tok = (trig, some vs))
    (h2 : CmdLine.assocGet opts trig = some o)
    (h3 : CmdLine.ValueType.none ∈ o.type)
    (h4 : o.isArray = true ∨ CmdLine.getTarget o ∉ seen) :
    CmdLine.consumeLoop opts em (tok :: rest) res seen =
      CmdLine.consumeLoop opts em rest
        (Obj.set res (CmdLine.getTarget o) (.vBool true))
        (seen.insert (CmdLine.getTarget o)) ∧
    CmdLine.parse (CmdLine.Options.parse [CmdLine.flagDescriptor]) ["--flag=xyz"]
        CmdLine.defaultTextErrorEmiters = .ok (.vObj [("flag", .vBool true)]) := by
  refine ⟨?_, rfl⟩
  have hng : ¬(o.isArray = false ∧ CmdLine.getTarget o ∈ seen) := by
    rintro ⟨ha, hb⟩
    rcases h4 with h | h
    · rw [h] at ha; cases ha
    · exact h hb
  have hstep : CmdLine.gatherStep opts o (CmdLine.splitEq tok).2 rest =
      ((if vs.length > 0 then Obj.splitOnChar ',' vs.toList else []), rest) := by
    rw [h1]
    rfl
  show CmdLine.consumeLoopFuel opts em (tok :: rest).length (tok :: rest) res seen = _
  rw [List.length_cons]
  have h2eq : CmdLine.assocGet opts (CmdLine.splitEq tok).1 = some o := by
    rw [h1]
    exact h2
  have hn : o.type.contains .none = true := (CmdLine.containsVT_iff o.type .none).mpr h3
  simp only [CmdLine.consumeLoopFuel, h2eq, if_neg hng, hstep, if_pos hn]
  rfl

/-- Witness for C10: `--flag=xyz` where `--flag` is none-typed and carries a
whitelist map without the key `xyz`. -/
theorem claim_C10_witness :
    (CmdLine.splitEq "--flag=xyz" = ("--flag", some "xyz")) ∧
    (CmdLine.assocGet (CmdLine.Options.parse [CmdLine.flagDescriptor]) "--flag" =
      some (CmdLine.compileOpt CmdLine.flagDescriptor)) ∧
    (CmdLine.ValueType.none ∈ (CmdLine.compileOpt CmdLine.flagDescriptor).type) ∧
    (CmdLine.consumeLoop (CmdLine.Options.parse [CmdLine.flagDescriptor])
        CmdLine.defaultTextErrorEmiters ["--flag=xyz"] (.vObj []) [] =
      CmdLine.consumeLoop (CmdLine.Options.parse [CmdLine.flagDescriptor])
        CmdLine.defaultTextErrorEmiters []
        (Obj.set (.vObj []) (CmdLine.getTarget (CmdLine.compileOpt CmdLine.flagDescriptor))
          (.vBool true))
        ([].insert (CmdLine.getTarget (CmdLine.compileOpt CmdLine.flagDescriptor))) ∧
    CmdLine.parse (CmdLine.Options.parse [CmdLine.flagDescriptor]) ["--flag=xyz"]
        CmdLine.defaultTextErrorEmiters = .ok (.vObj [("flag", .vBool true)])) :=
  ⟨rfl, rfl, by decide,
    claim_C10 (CmdLine.Options.parse [CmdLine.flagDescriptor])
      CmdLine.defaultTextErrorEmiters (.vObj []) [] "--flag=xyz" []
      (CmdLine.compileOpt CmdLine.flagDescriptor) "--flag" "xyz"
      rfl rfl (by decide) (Or.inr (by decide))⟩

/-- C5 — whitelist map is exclusive: for an option with a map, the value
processing loop succeeds iff every raw value is an exact key of the map — the
stored values are the map entries themselves (or their `.value` field for
`{value, description}` entries) and no type coercion runs (the statement holds
for every declared type list) — and fails with the invalid-value error
listing the allowed keys at the first raw value that is not a key, regardless
of whether that value would satisfy a declared type; concretely `--mode=fast`
with map `{fast: "MODE_FAST"}` stores `MODE_FAST` while `--mode=slow` fails
even though `slow` is a valid string. -/
theorem claim_C5 (o : CmdLine.OptC) (m : List (String × Value)) (trigger : String)
    (em : CmdLine.TextErrorEmiters) (vs : List String)
    (hm : o.map = some m) :
    ((∀ v ∈ vs, (CmdLine.assocGet m v).isSome) →
      CmdLine.processValues o trigger em vs =
        .ok (vs.map (fun v => CmdLine.mapEntryValue ((CmdLine.assocGet m v).getD .vUndefined)))) ∧
    (∀ (pre : List String) (v : String) (post : List String), vs = pre ++ v :: post →
      (∀ u ∈ pre, (CmdLine.assocGet m u).isSome) →
      CmdLine.assocGet m v = Option.none →
      CmdLine.processValues o trigger em vs =
        .error (em.invalidValueFromMap trigger v (m.map Prod.fst))) ∧
    CmdLine.parse (CmdLine.Options.parse [CmdLine.modeDescriptor]) ["--mode=fast"]
        CmdLine.defaultTextErrorEmiters = .ok (.vObj [("mode", .vStr "MODE_FAST")]) ∧
    CmdLine.parse (CmdLine.Options.parse [CmdLine.modeDescriptor]) ["--mode=slow"]
        CmdLine.defaultTextErrorEmiters =
      .error "Invalid value 'slow' for option '--mode'. Allowed values: fast" := by
  refine ⟨?_, ?_, rfl, rfl⟩
  · intro hall
    induction vs with
    | nil => simp [CmdLine.processValues]
    | cons v rest ih =>
        have hv : (CmdLine.assocGet m v).isSome := hall v (List.mem_cons_self v rest)
        obtain ⟨entry, he⟩ := Option.isSome_iff_exists.mp hv
        have ihr := ih (fun u hu => hall u (List.mem_cons_of_mem v hu))
        simp only [CmdLine.processValues, hm, he, ihr, Except.map, List.map_cons, he,
          Option.getD_some]
  · intro pre v post hsplit hpre hv
    subst hsplit
    induction pre with
    | nil =>
        simp only [List.nil_append, CmdLine.processValues, hm, hv]
    | cons u pre ih =>
        have hu : (CmdLine.assocGet m u).isSome := hpre u (List.mem_cons_self u pre)
        obtain ⟨entry, he⟩ := Option.isSome_iff_exists.mp hu
        have ihr := ih (fun w hw => hpre w (List.mem_cons_of_mem u hw))
        simp only [List.cons_append, CmdLine.processValues, hm, he, Except.map,
          List.append_eq, ihr]

/-- Witness for C5: the `--mode` option with map `{fast: "MODE_FAST"}`, at
raw values `["fast"]` (all keys) and `["slow"]` (no key). -/
theorem claim_C5_witness :
    ((CmdLine.compileOpt CmdLine.modeDescriptor).map = some [("fast", .vStr "MODE_FAST")]) ∧
    ((∀ v ∈ ["fast"], (CmdLine.assocGet [("fast", Value.vStr "MODE_FAST")] v).isSome) →
      CmdLine.processValues (CmdLine.compileOpt CmdLine.modeDescriptor) "--mode"
          CmdLine.defaultTextErrorEmiters ["fast"] =
        .ok (["fast"].map (fun v => CmdLine.mapEntryValue
          ((CmdLine.assocGet [("fast", Value.vStr "MODE_FAST")] v).getD .vUndefined)))) ∧
    (CmdLine.processValues (CmdLine.compileOpt CmdLine.modeDescriptor) "--mode"
        CmdLine.defaultTextErrorEmiters ["slow"] =
      .error (CmdLine.defaultTextErrorEmiters.invalidValueFromMap "--mode" "slow"
        ([("fast", Value.vStr "MODE_FAST")].map Prod.fst))) :=
  ⟨rfl,
    (claim_C5 (CmdLine.compileOpt CmdLine.modeDescriptor) [("fast", .vStr "MODE_FAST")]
      "--mode" CmdLine.defaultTextErrorEmiters ["fast"] rfl).1,
    (claim_C5 (CmdLine.compileOpt CmdLine.modeDescriptor) [("fast", .vStr "MODE_FAST")]
      "--mode" CmdLine.defaultTextErrorEmiters ["slow"] rfl).2.1 [] "slow" [] rfl
      (by intro u hu; exact absurd hu (List.not_mem_nil u)) rfl⟩

/-- C6 — array accumulation round-trip in encounter order: parsing
`--tag=a --tag=b` for the array-typed option `--tag` and reading the target
path yields `["a", "b"]` in encounter order; in general, for a plain target
on an object result, the array write appends all coerced values to an
existing array at the target and creates the array when the target does not
hold one. -/
theorem claim_C6 :
    (CmdLine.parse (CmdLine.Options.parse [CmdLine.tagDescriptor]) ["--tag=a", "--tag=b"]
        CmdLine.defaultTextErrorEmiters =
      .ok (.vObj [("tag", .vArr [.vStr "a", .vStr "b"])]) ∧
     Obj.get (.vObj [("tag", .vArr [.vStr "a", .vStr "b"])]) "tag" =
       .vArr [.vStr "a", .vStr "b"]) ∧
    (∀ (fs : List (String × Value)) (target : String) (pv xs : List Value),
      Obj.plainKey target →
      ((Obj.get (.vObj fs) target = .vArr xs →
        Obj.get (CmdLine.appendAtTarget (.vObj fs) target pv) target = .vArr (xs ++ pv)) ∧
       ((∀ ys, Obj.get (.vObj fs) target ≠ .vArr ys) →
        Obj.get (CmdLine.appendAtTarget (.vObj fs) target pv) target = .vArr pv))) := by
  refine ⟨⟨rfl, rfl⟩, ?_⟩
  intro fs target pv xs hplain
  constructor
  · intro hx
    unfold CmdLine.appendAtTarget
    rw [hx]
    show Obj.get (Obj.set (Value.vObj fs) target (Value.vArr (xs ++ pv))) target =
      Value.vArr (xs ++ pv)
    rw [Obj.set_plain fs target (.vArr (xs ++ pv)) hplain,
      Obj.get_plain _ target hplain, Obj.getField_setField_self]
  · intro hne
    unfold CmdLine.appendAtTarget
    cases hg : Obj.get (.vObj fs) target with
    | vArr ys => exact absurd hg (hne ys)
    | vUndefined =>
        rw [Obj.set_plain fs target (.vArr pv) hplain, Obj.get_plain _ target hplain,
          Obj.getField_setField_self]
    | vNull =>
        rw [Obj.set_plain fs target (.vArr pv) hplain, Obj.get_plain _ target hplain,
          Obj.getField_setField_self]
    | vBool b =>
        rw [Obj.set_plain fs target (.vArr pv) hplain, Obj.get_plain _ target hplain,
          Obj.getField_setField_self]
    | vNum q =>
        rw [Obj.set_plain fs target (.vArr pv) hplain, Obj.get_plain _ target hplain,
          Obj.getField_setField_self]
    | vStr s =>
        rw [Obj.set_plain fs target (.vArr pv) hplain, Obj.get_plain _ target hplain,
          Obj.getField_setField_self]
    | vObj gs =>
        rw [Obj.set_plain fs target (.vArr pv) hplain, Obj.get_plain _ target hplain,
          Obj.getField_setField_self]

/-- Witness for C6: appending `"b"` to the existing `["a"]` at target
`tag`. -/
theorem claim_C6_witness :
    Obj.plainKey "tag" ∧
    (Obj.get (.vObj [("tag", .vArr [.vStr "a"])]) "tag" = .vArr [.vStr "a"] →
      Obj.get (CmdLine.appendAtTarget (.vObj [("tag", .vArr [.vStr "a"])]) "tag"
        [.vStr "b"]) "tag" = .vArr ([.vStr "a"] ++ [.vStr "b"])) :=
  ⟨by decide,
    (claim_C6.2 [("tag", .vArr [.vStr "a"])] "tag" [.vStr "b"] [.vStr "a"] (by decide)).1⟩

/-! ### Lemmas for the defaults pass -/

namespace Obj

theorem splitOnCharAux_ne_nil (sep : Char) :
    ∀ (cs cur : List Char), splitOnCharAux sep cur cs ≠ [] := by
  intro cs
  induction cs with
  | nil => intro cur; simp [splitOnCharAux]
  | cons c rest ih =>
      intro cur
      simp only [splitOnCharAux]
      by_cases h : c = sep
      · rw [if_pos h]; simp
      · rw [if_neg h]; exact ih _

theorem pathToSegments_ne_nil (path : String) : pathToSegments path ≠ [] :=
  splitOnCharAux_ne_nil '.' _ _

theorem setSegs_vObj_shape (x : Value) :
    ∀ (segs : List String) (fs : List (String × Value)), segs ≠ [] →
      ∃ fs2, setSegs (.vObj fs) segs x = .vObj fs2 := by
  intro segs fs h
  match segs with
  | [] => exact absurd rfl h
  | [k] => exact ⟨setField fs k x, rfl⟩
  | k :: k2 :: rest => exact ⟨_, rfl⟩

theorem set_vObj_shape (fs : List (String × Value)) (path : String) (x : Value) :
    ∃ fs2, Obj.set (.vObj fs) path x = .vObj fs2 :=
  setSegs_vObj_shape x (pathToSegments path) fs (pathToSegments_ne_nil path)

end Obj

namespace Obj

/-- All segments of a path denote object fields: no numeric (array-index)
segments, so the `Obj.set` walk only ever creates and traverses objects. -/
def NoNumSegs (segs : List String) : Prop :=
  ∀ k ∈ segs, isNumericKey k = false

/-- Along a segment path inside a value, every intermediate container is an
object or absent, so a write along the path is never silently dropped on a
non-object. -/
def objPath : Value → List String → Prop
  | _, [] => True
  | x, [_] => ∃ fs, x = Value.vObj fs
  | x, k :: k2 :: rest =>
      ∃ fs, x = Value.vObj fs ∧
        ((getField fs k).isUndefinedOrNull = true ∨ objPath (getField fs k) (k2 :: rest))

theorem objPath_fresh : ∀ segs : List String, objPath (.vObj []) segs
  | [] => trivial
  | [_] => ⟨[], rfl⟩
  | _ :: _ :: _ => ⟨[], rfl, Or.inl rfl⟩

theorem objPath_vObj :
    ∀ (segs : List String) (x : Value), segs ≠ [] → objPath x segs →
      ∃ fs, x = .vObj fs := by
  intro segs x h hop
  match segs, hop with
  | [], _ => exact absurd rfl h
  | [k], ⟨fs, hx⟩ => exact ⟨fs, hx⟩
  | k :: k2 :: rest, ⟨fs, hx, _⟩ => exact ⟨fs, hx⟩

theorem objPath_cons_obj (fs : List (String × Value)) (k k2 : String) (rest : List String)
    (h : objPath (.vObj fs) (k :: k2 :: rest)) :
    (getField fs k).isUndefinedOrNull = true ∨ objPath (getField fs k) (k2 :: rest) := by
  obtain ⟨fs2, hfs2, hd⟩ := h
  injection hfs2 with he
  subst he
  exact hd

theorem setKey_non_obj (x : Value) (k : String) (v : Value)
    (hk : isNumericKey k = false) (hx : ∀ fs, x ≠ .vObj fs) : setKey x k v = x := by
  cases x with
  | vObj fs => exact absurd rfl (hx fs)
  | vArr xs => simp [setKey, hk]
  | vUndefined => rfl
  | vNull => rfl
  | vBool b => rfl
  | vNum q => rfl
  | vStr s => rfl

/-- A write whose walk starts at a non-object (with object-field segments) is
dropped entirely: JS property assignment on primitives is a no-op, and array
non-index properties are outside the value model. -/
theorem setSegs_non_obj (v : Value) :
    ∀ (segs : List String) (x : Value), NoNumSegs segs → (∀ fs, x ≠ .vObj fs) →
      setSegs x segs v = x := by
  intro segs x hnn hx
  match segs with
  | [] => rfl
  | [k] => exact setKey_non_obj x k v (hnn k (List.mem_cons_self _ _)) hx
  | k :: k2 :: rest =>
      show setKey x k _ = x
      exact setKey_non_obj x k _ (hnn k (List.mem_cons_self _ _)) hx

theorem setSegs_obj_cons (fs : List (String × Value)) (k k2 : String) (rest : List String)
    (v : Value) :
    setSegs (.vObj fs) (k :: k2 :: rest) v =
      .vObj (setField fs k (setSegs
        (if (getField fs k).isUndefinedOrNull = true then
          (if isNumericKey k2 = true then .vArr [] else .vObj []) else getField fs k)
        (k2 :: rest) v)) := rfl

theorem getSegs_obj_cons (fs : List (String × Value)) (k : String) (rest : List String) :
    getSegs (.vObj fs) (k :: rest) =
      (if (getField fs k).isUndefined = true then .vUndefined
       else getSegs (getField fs k) rest) := rfl

end Obj

namespace Obj

/-- Writing along an object path and reading the same path back yields the
written value. -/
theorem getSegs_setSegs_self (v : Value) :
    ∀ (segs : List String) (x : Value), segs ≠ [] → NoNumSegs segs →
      objPath x segs → getSegs (setSegs x segs v) segs = v := by
  intro segs
  induction segs with
  | nil => intro x h _ _; exact absurd rfl h
  | cons k rest ih =>
      intro x _ hnn hop
      cases rest with
      | nil =>
          obtain ⟨fs, rfl⟩ := hop
          show getSegs (.vObj (setField fs k v)) [k] = v
          rw [getSegs_obj_cons, getField_setField_self]
          cases v <;> simp [Value.isUndefined, getSegs]
      | cons k2 rest2 =>
          obtain ⟨fs, rfl⟩ := objPath_vObj _ _ (by simp) hop
          have hdisj := objPath_cons_obj fs k k2 rest2 hop
          rw [setSegs_obj_cons, getSegs_obj_cons, getField_setField_self]
          have hb : isNumericKey k2 = false := hnn k2 (by simp)
          have hop2 : objPath
              (if (getField fs k).isUndefinedOrNull = true then
                (if isNumericKey k2 = true then .vArr [] else .vObj []) else getField fs k)
              (k2 :: rest2) := by
            by_cases hu : (getField fs k).isUndefinedOrNull = true
            · rw [if_pos hu, hb]
              exact objPath_fresh _
            · rw [if_neg hu]
              rcases hdisj with hd | hd
              · exact absurd hd hu
              · exact hd
          have hcobj : ∃ gs,
              (if (getField fs k).isUndefinedOrNull = true then
                (if isNumericKey k2 = true then .vArr [] else .vObj []) else getField fs k) =
              Value.vObj gs := objPath_vObj _ _ (by simp) hop2
          obtain ⟨gs, hgs⟩ := hcobj
          have hrec := ih _ (by simp) (fun q hq => hnn q (List.mem_cons_of_mem _ hq)) hop2
          have hy2 : ∃ hs, setSegs
              (if (getField fs k).isUndefinedOrNull = true then
                (if isNumericKey k2 = true then .vArr [] else .vObj []) else getField fs k)
              (k2 :: rest2) v = Value.vObj hs := by
            rw [hgs]
            exact setSegs_vObj_shape v (k2 :: rest2) gs (by simp)
          obtain ⟨hs, hy⟩ := hy2
          rw [hy] at hrec ⊢
          simpa [Value.isUndefined] using hrec

end Obj

namespace Obj

/-- A write along one object path does not disturb a read along any
independent path (neither path an ancestor of the other). -/
theorem getSegs_setSegs_frame (v : Value) :
    ∀ (segs2 segs1 : List String) (x : Value),
      NoNumSegs segs2 → ¬(segs2 <+: segs1) → ¬(segs1 <+: segs2) →
      getSegs (setSegs x segs2 v) segs1 = getSegs x segs1 := by
  intro segs2
  induction segs2 with
  | nil => intro segs1 x _ h21 _; exact absurd List.nil_prefix h21
  | cons k2 t2 ih =>
      intro segs1 x hnn h21 h12
      cases segs1 with
      | nil => exact absurd List.nil_prefix h12
      | cons k1 t1 =>
          by_cases hobj : ∃ fs, x = Value.vObj fs
          · obtain ⟨fs, rfl⟩ := hobj
            by_cases hk : k1 = k2
            · subst hk
              have ht2 : t2 ≠ [] := by
                rintro rfl
                exact h21 ⟨t1, rfl⟩
              have ht1 : t1 ≠ [] := by
                rintro rfl
                exact h12 ⟨t2, rfl⟩
              have h21t : ¬(t2 <+: t1) := fun hp => h21 (List.cons_prefix_cons.mpr ⟨rfl, hp⟩)
              have h12t : ¬(t1 <+: t2) := fun hp => h12 (List.cons_prefix_cons.mpr ⟨rfl, hp⟩)
              have hnnt : NoNumSegs t2 := fun q hq => hnn q (List.mem_cons_of_mem _ hq)
              obtain ⟨b, t2p, rfl⟩ := List.exists_cons_of_ne_nil ht2
              obtain ⟨a, t1p, rfl⟩ := List.exists_cons_of_ne_nil ht1
              rw [setSegs_obj_cons, getSegs_obj_cons, getSegs_obj_cons, getField_setField_self]
              by_cases hu : (getField fs k1).isUndefinedOrNull = true
              · have hb : isNumericKey b = false := hnn b (by simp)
                rw [if_pos hu, hb]
                simp only [Bool.false_eq_true, if_false]
                have hy2 : ∃ hs, setSegs (Value.vObj []) (b :: t2p) v = Value.vObj hs :=
                  setSegs_vObj_shape v (b :: t2p) [] (by simp)
                obtain ⟨hs, hy⟩ := hy2
                have hrec := ih (a :: t1p) (Value.vObj []) hnnt h21t h12t
                rw [hy] at hrec ⊢
                rw [hrec]
                have hfresh : getSegs (Value.vObj []) (a :: t1p) = Value.vUndefined := rfl
                rw [hfresh]
                cases hch : getField fs k1 with
                | vUndefined => simp [Value.isUndefined]
                | vNull =>
                    have : getSegs Value.vNull (a :: t1p) = Value.vUndefined := rfl
                    simp [Value.isUndefined, this]
                | vBool b2 => rw [hch] at hu; simp [Value.isUndefinedOrNull] at hu
                | vNum q2 => rw [hch] at hu; simp [Value.isUndefinedOrNull] at hu
                | vStr s2 => rw [hch] at hu; simp [Value.isUndefinedOrNull] at hu
                | vArr xs2 => rw [hch] at hu; simp [Value.isUndefinedOrNull] at hu
                | vObj fs2 => rw [hch] at hu; simp [Value.isUndefinedOrNull] at hu
              · rw [if_neg hu]
                by_cases hcobj : ∃ gs, getField fs k1 = Value.vObj gs
                · obtain ⟨gs, hgs⟩ := hcobj
                  rw [hgs]
                  have hy2 : ∃ hs, setSegs (Value.vObj gs) (b :: t2p) v = Value.vObj hs :=
                    setSegs_vObj_shape v (b :: t2p) gs (by simp)
                  obtain ⟨hs, hy⟩ := hy2
                  have hrec := ih (a :: t1p) (Value.vObj gs) hnnt h21t h12t
                  rw [hy] at hrec ⊢
                  rw [hrec]
                  simp [Value.isUndefined]
                · rw [setSegs_non_obj v (b :: t2p) _ hnnt (fun g hg => hcobj ⟨g, hg⟩)]
            · cases t2 with
              | nil =>
                  show getSegs (.vObj (setField fs k2 v)) (k1 :: t1) = _
                  rw [getSegs_obj_cons, getSegs_obj_cons,
                    getField_setField_ne k2 k1 v hk]
              | cons b t2p =>
                  rw [setSegs_obj_cons, getSegs_obj_cons, getSegs_obj_cons,
                    getField_setField_ne k2 k1 _ hk]
          · rw [setSegs_non_obj v (k2 :: t2) x hnn (fun fs hf => hobj ⟨fs, hf⟩)]

end Obj

namespace Obj

/-- String-path versions of the three path lemmas. -/
theorem get_set_self (x : Value) (t : String) (v : Value)
    (hnn : NoNumSegs (pathToSegments t)) (hop : objPath x (pathToSegments t)) :
    get (set x t v) t = v :=
  getSegs_setSegs_self v (pathToSegments t) x (pathToSegments_ne_nil t) hnn hop

theorem get_set_frame (x : Value) (t2 t1 : String) (v : Value)
    (hnn : NoNumSegs (pathToSegments t2))
    (h21 : ¬(pathToSegments t2 <+: pathToSegments t1))
    (h12 : ¬(pathToSegments t1 <+: pathToSegments t2)) :
    get (set x t2 v) t1 = get x t1 :=
  getSegs_setSegs_frame v (pathToSegments t2) (pathToSegments t1) x hnn h21 h12

end Obj

namespace CmdLine

end CmdLine

namespace CmdLine

end CmdLine

namespace CmdLine

end CmdLine

namespace CmdLine

end CmdLine

